import Mathlib

/-!
# Recipe table extraction (`save_recipes.js`) and image download progress (`downloadItems.js`)

A shallow embedding of the two scripts of the repository.

Modelling conventions.

* An object created by `{}` is the list of its own `(key, value)` entries in the order
  JavaScript enumerates them: integer-like keys first, in ascending order, then the other
  keys in creation order (`objSet`).  Its prototype is `Object.prototype`: a read of a name
  that is not an own key sees the inherited member (`readProperty`), and an assignment to
  `__proto__` creates no own key (`assignNumber`, `tableAssign`).
* The game-data package `minecraft-data` is not part of the repository; its three tables
  `items`, `itemsByName` and `recipes` are a parameter (`McData`), read through `objGet`.
* An ingredient entry is an item id or `null` (`Option Nat`); a field that may be missing
  on a raw recipe is an `Option`.
* `saveRecipesToFile` returns the object it hands to `JSON.stringify`, which serialises the
  own entries; `downloadAllItemImages` returns the progress counter together with the
  progress lines written.
-/

namespace RecipeVisualizer

/-! ## JavaScript objects -/

/-- Own-entry read `o[key]` of a table; `none` stands for `undefined`. -/
def objGet {κ α : Type} [DecidableEq κ] : List (κ × α) → κ → Option α
  | [], _ => none
  | (k, v) :: rest, key => if k = key then some v else objGet rest key

/-- Own keys of an object, in enumeration order. -/
def objKeys {κ α : Type} (o : List (κ × α)) : List κ := o.map Prod.fst

/-- The array index a property name denotes, if it is integer-like: a decimal numeral
without leading zero whose value is below `2^32 - 1`. -/
def arrayIndex (key : String) : Option Nat :=
  let cs := key.toList
  if cs.all Char.isDigit && !cs.isEmpty && (cs.head? != some '0' || cs.length == 1) then
    let n := cs.foldl (fun acc c => 10 * acc + (c.toNat - 48)) 0
    if n < 4294967295 then some n else none
  else
    none

/-- Overwrite of the value of an existing own key: the key keeps its position. -/
def ownReplace {α : Type} : List (String × α) → String → α → List (String × α)
  | [], _, _ => []
  | (k, v) :: rest, key, val =>
    if k = key then (k, val) :: rest else (k, v) :: ownReplace rest key val

/-- Creation of an own key that denotes the array index `n`: it is enumerated after the
integer-like keys below `n` and before every other key. -/
def ownInsertIndex {α : Type} (n : Nat) (key : String) (val : α) :
    List (String × α) → List (String × α)
  | [] => [(key, val)]
  | (k, v) :: rest =>
    match arrayIndex k with
    | some m =>
      if m < n then (k, v) :: ownInsertIndex n key val rest else (key, val) :: (k, v) :: rest
    | none => (key, val) :: (k, v) :: rest

/-- Definition of the own property `key` of an object: an existing key is overwritten in
place, a new integer-like key is sorted in, any other new key is appended. -/
def objSet {α : Type} (o : List (String × α)) (key : String) (val : α) : List (String × α) :=
  if (objGet o key).isSome then ownReplace o key val
  else
    match arrayIndex key with
    | some n => ownInsertIndex n key val o
    | none => o ++ [(key, val)]

/-- Names of the members of `Object.prototype`, inherited by every object created by `{}`.
All are functions, except the accessor `__proto__`, whose getter returns the prototype. -/
def objectPrototypeMembers : List String :=
  ["constructor", "__defineGetter__", "__defineSetter__", "hasOwnProperty",
   "__lookupGetter__", "__lookupSetter__", "isPrototypeOf", "propertyIsEnumerable",
   "toString", "valueOf", "__proto__", "toLocaleString"]

/-- A JavaScript number as the counters hold it: `NaN` or a natural number. -/
inductive JSNumber where
  | nan
  | num (n : Nat)
deriving DecidableEq, Repr

/-- The value of `x + 1`. -/
def JSNumber.succ : JSNumber → JSNumber
  | .nan => .nan
  | .num n => .num (n + 1)

/-- What a read `recipe[name]` of a counter object yields: `undefined`, an own number, or
an inherited member of `Object.prototype` (a function or an object). -/
inductive PropertyValue where
  | undefined
  | number (v : JSNumber)
  | inherited
deriving DecidableEq, Repr

/-- Property read `recipe[name]` on a counter object created by `{}`. -/
def readProperty (recipe : List (String × JSNumber)) (name : String) : PropertyValue :=
  match objGet recipe name with
  | some v => .number v
  | none => if name ∈ objectPrototypeMembers then .inherited else .undefined

/-- JavaScript `!x`: `undefined`, `NaN` and `0` are falsy, functions and objects are not. -/
def isFalsy : PropertyValue → Bool
  | .undefined => true
  | .number .nan => true
  | .number (.num 0) => true
  | .number (.num (_ + 1)) => false
  | .inherited => false

/-- JavaScript `ToNumber`, applied by `++` to the old value: `undefined`, functions and
plain objects convert to `NaN`. -/
def toNumber : PropertyValue → JSNumber
  | .undefined => .nan
  | .number v => v
  | .inherited => .nan

/-- Assignment `recipe[name] = val` of a number to a counter object created by `{}`: the
inherited setter of `__proto__` ignores a number; any other name becomes an own key. -/
def assignNumber (recipe : List (String × JSNumber)) (name : String) (val : JSNumber) :
    List (String × JSNumber) :=
  if name = "__proto__" then recipe else objSet recipe name val

/-- Read of an id-keyed table with a key that may be `null`: the table has no `"null"` key. -/
def idGet {α : Type} (o : List (Nat × α)) : Option Nat → Option α
  | none => none
  | some id => objGet o id

/-! ## The catalog (`minecraft-data`) -/

/-- An item of the game data. -/
structure Item where
  id : Nat
  name : String
deriving DecidableEq, Repr

/-- The `result` field of a raw recipe. -/
structure RecipeResult where
  count : Nat
deriving DecidableEq, Repr

/-- A raw recipe variant: `ingredients` (flat list) or `inShape` (grid of rows). -/
structure RawRecipe where
  ingredients : Option (List (Option Nat))
  inShape : Option (List (List (Option Nat)))
  result : RecipeResult
deriving DecidableEq, Repr

/-- The tables of `mcdata` read by the scripts, entries in enumeration order. -/
structure McData where
  items : List (Nat × Item)
  itemsByName : List (String × Item)
  recipes : List (Nat × List RawRecipe)
deriving Repr

/-! ## `save_recipes.js` -/

/-- Function `getItemId` of `save_recipes.js`; `none` is the `null` result, and also the
`undefined` that `item.id` yields when the read finds no entry but an inherited member:
both make the read `mcdata.recipes[itemId]` yield `undefined`. -/
def getItemId (mcdata : McData) (itemName : String) : Option Nat :=
  match objGet mcdata.itemsByName itemName with
  | some item => some item.id
  | none => none

/-- Function `getItemName` of `save_recipes.js`. -/
def getItemName (mcdata : McData) (itemId : Option Nat) : Option String :=
  match idGet mcdata.items itemId with
  | some item => some item.name
  | none => none

/-- Function `getAllItems` of `save_recipes.js`; `ignore = none` is a missing argument. -/
def getAllItems (mcdata : McData) (ignore : Option (List String)) : List Item :=
  let ignore := match ignore with
    | some l => l
    | none => []
  mcdata.items.foldl
    (fun items entry => if entry.2.name ∈ ignore then items else items ++ [entry.2]) []

/-- Second element of a pair returned by `getItemCraftingRecipes`. -/
structure Crafted where
  craftedCount : Nat
deriving DecidableEq, Repr

/-- Body of the loop `for (let ingredient of ingredients)`: the `continue` on an
unresolved name, `if (!recipe[name]) recipe[name] = 0`, then `recipe[name]++`. -/
def countIngredient (mcdata : McData) (recipe : List (String × JSNumber))
    (ingredient : Option Nat) : List (String × JSNumber) :=
  match getItemName mcdata ingredient with
  | none => recipe
  | some ingredientName =>
    let recipe :=
      if isFalsy (readProperty recipe ingredientName) then
        assignNumber recipe ingredientName (.num 0)
      else recipe
    assignNumber recipe ingredientName (toNumber (readProperty recipe ingredientName)).succ

/-- The loop `for (let ingredient of ingredients)` started from `recipe = {}`. -/
def countIngredients (mcdata : McData) (ingredients : List (Option Nat)) :
    List (String × JSNumber) :=
  ingredients.foldl (countIngredient mcdata) []

/-- The sequence a raw recipe is iterated over: `r.ingredients`, else `r.inShape.flat()`,
else the empty list. -/
def ingredientsOf (r : RawRecipe) : List (Option Nat) :=
  match r.ingredients with
  | some l => l
  | none =>
    match r.inShape with
    | some grid => grid.flatten
    | none => []

/-- Body of the loop `for (let r of mcdata.recipes[itemId])`: the pair pushed for `r`. -/
def recipeEntry (mcdata : McData) (r : RawRecipe) : List (String × JSNumber) × Crafted :=
  (countIngredients mcdata (ingredientsOf r), { craftedCount := r.result.count })

/-- Function `getItemCraftingRecipes` of `save_recipes.js`; `none` is the `null` result. -/
def getItemCraftingRecipes (mcdata : McData) (itemName : String) :
    Option (List (List (String × JSNumber) × Crafted)) :=
  let itemId := getItemId mcdata itemName
  match idGet mcdata.recipes itemId with
  | none => none
  | some rs => some (rs.foldl (fun recipes r => recipes ++ [recipeEntry mcdata r]) [])

/-- Number of entries of `ingredients` that `getItemName` resolves to `name`. -/
def occurrences (mcdata : McData) (ingredients : List (Option Nat)) (name : String) : Nat :=
  ingredients.countP (fun e => decide (getItemName mcdata e = some name))

/-- A record of the recipe table; `isBaseItem = none` is a record without that field. -/
structure RecipeRecord where
  ingredients : List (String × JSNumber)
  craftedCount : Nat
  hasImage : Bool
  isBaseItem : Option Bool
deriving DecidableEq, Repr

/-- The object `recipes` of `saveRecipesToFile`: its own entries, which are what
`JSON.stringify` writes, and the record that an assignment to `__proto__` has made its
prototype (`none`: the prototype is still `Object.prototype`). -/
structure RecipeTable where
  proto : Option RecipeRecord
  own : List (String × RecipeRecord)
deriving DecidableEq, Repr

/-- Assignment `recipes[name] = record`: the inherited setter of `__proto__` makes the
record the prototype and creates no key; any other name becomes an own key. -/
def tableAssign (recipes : RecipeTable) (name : String) (record : RecipeRecord) :
    RecipeTable :=
  if name = "__proto__" then { recipes with proto := some record }
  else { recipes with own := objSet recipes.own name record }

/-- The record the read `recipes[name]` evaluates to: the getter of `__proto__` returns
the prototype, any other name is looked up among the own entries; `none` when the value
is no record of the table. -/
def tableGet (recipes : RecipeTable) (name : String) : Option RecipeRecord :=
  if name = "__proto__" then recipes.proto else objGet recipes.own name

/-- Body of the loop `for (const item of allItems)` of `saveRecipesToFile`. -/
def saveStep (mcdata : McData) (recipes : RecipeTable) (item : Item) : RecipeTable :=
  match getItemCraftingRecipes mcdata item.name with
  | some (mainRecipe :: _) =>
    tableAssign recipes item.name
      { ingredients := mainRecipe.1
        craftedCount := mainRecipe.2.craftedCount
        hasImage := true
        isBaseItem := none }
  | _ =>
    tableAssign recipes item.name
      { ingredients := []
        craftedCount := 0
        hasImage := true
        isBaseItem := some true }

/-- Function `saveRecipesToFile` of `save_recipes.js`: the table `recipes` that is serialised. -/
def saveRecipesToFile (mcdata : McData) : RecipeTable :=
  (getAllItems mcdata none).foldl (saveStep mcdata) { proto := none, own := [] }

/-! ## `downloadItems.js` -/

/-- What the file system and the browser do during the loop, by iteration number and item
name: whether the image file is on disk when that iteration checks for it (the response
handler writes files while the loop runs), and whether `page.goto` throws. -/
structure DownloadEnv where
  existsSync : Nat → String → Bool
  gotoThrows : Nat → String → Bool

/-- Progress state of `downloadAllItemImages`: the counter and the progress lines written,
each line as `(processedCount, totalItems)`. -/
structure Progress where
  processedCount : Nat
  written : List (Nat × Nat)
deriving DecidableEq, Repr

/-- The statements `processedCount++; ...; process.stdout.write(...)`. -/
def report (totalItems : Nat) (p : Progress) : Progress :=
  { processedCount := p.processedCount + 1
    written := p.written ++ [(p.processedCount + 1, totalItems)] }

/-- Iteration number `i` of `for (const item of items)`: the `try` block (with its early
`continue` when the file exists), the `catch` block, then the `finally` block, which
runs on every path out of the `try`, the `continue` included. -/
def downloadStep (env : DownloadEnv) (totalItems : Nat) (i : Nat) (p : Progress)
    (item : Item) : Progress :=
  let afterTry :=
    if env.existsSync i item.name then
      -- `processedCount++`, progress line, `continue`
      report totalItems p
    else if env.gotoThrows i item.name then
      -- `catch`: the error is logged, the counter is not touched
      p
    else
      p
  -- `finally`
  report totalItems afterTry

/-- The loop `for (const item of items)` from iteration number `i` on. -/
def downloadLoop (env : DownloadEnv) (totalItems : Nat) :
    Nat → List Item → Progress → Progress
  | _, [], p => p
  | i, item :: rest, p =>
    downloadLoop env totalItems (i + 1) rest (downloadStep env totalItems i p item)

/-- Function `downloadAllItemImages` of `downloadItems.js`; its `getAllItems()` is the
same loop as the one of `save_recipes.js`, called without an argument. -/
def downloadAllItemImages (env : DownloadEnv) (mcdata : McData) : Progress :=
  let items := getAllItems mcdata none
  let totalItems := items.length
  downloadLoop env totalItems 0 items { processedCount := 0, written := [] }

/-- Number of iterations, counted from iteration number `i`, that find the image file on
disk. -/
def existingFiles (env : DownloadEnv) : Nat → List Item → Nat
  | _, [] => 0
  | i, item :: rest =>
    (if env.existsSync i item.name then 1 else 0) + existingFiles env (i + 1) rest

/-! ## Proof-side definitions and small catalogs -/

/-- The record `saveRecipesToFile` assigns under an item name (both branches of its loop). -/
def mainRecord (mcdata : McData) (itemName : String) : RecipeRecord :=
  match getItemCraftingRecipes mcdata itemName with
  | some (mainRecipe :: _) =>
    { ingredients := mainRecipe.1
      craftedCount := mainRecipe.2.craftedCount
      hasImage := true
      isBaseItem := none }
  | _ =>
    { ingredients := []
      craftedCount := 0
      hasImage := true
      isBaseItem := some true }

/-- Whether `getItemName` resolves an ingredient entry. -/
def resolvable (mcdata : McData) (e : Option Nat) : Bool :=
  (getItemName mcdata e).isSome

/-- The count a counter entry holds, `0` for a missing entry and for `NaN`. -/
def storedCount : Option JSNumber → Nat
  | some (.num k) => k
  | _ => 0

/-- The own keys that are not integer-like, in enumeration order. -/
def stringKeys {α : Type} (o : List (String × α)) : List String :=
  (objKeys o).filter (fun k => (arrayIndex k).isNone)

/-- Order of two own keys in an enumeration: an integer-like key is preceded only by
integer-like keys that denote no larger index. -/
def KeyBefore (a b : String) : Prop :=
  ∀ n, arrayIndex b = some n → ∃ m, arrayIndex a = some m ∧ m ≤ n

/-- Consistency of the catalog tables, which `minecraft-data` builds from one item array:
the by-name table indexes every item of the by-id table, under the item's own id. -/
def NamesIndexed (mcdata : McData) : Prop :=
  ∀ entry ∈ mcdata.items, getItemId mcdata entry.2.name = some entry.2.id

instance (mcdata : McData) : Decidable (NamesIndexed mcdata) := by
  unfold NamesIndexed
  infer_instance

/-- A catalog of five items.  `ladder` has four variants: the list `[A, A, B]` with result
count 4, the grid `[[A, null], [null, B]]`, a list with an unknown id and a `null`, and the
list `[A, B]`.  `stick` has an empty variant list; the other items have no recipes entry. -/
def exampleData : McData :=
  { items :=
      [(1, ⟨1, "planks"⟩), (2, ⟨2, "stick"⟩), (3, ⟨3, "ladder"⟩), (4, ⟨4, "cobblestone"⟩),
       (5, ⟨5, "torch"⟩)]
    itemsByName :=
      [("planks", ⟨1, "planks"⟩), ("stick", ⟨2, "stick"⟩), ("ladder", ⟨3, "ladder"⟩),
       ("cobblestone", ⟨4, "cobblestone"⟩), ("torch", ⟨5, "torch"⟩)]
    recipes :=
      [(2, []),
       (3, [⟨some [some 1, some 1, some 2], none, ⟨4⟩⟩,
            ⟨none, some [[some 1, none], [none, some 2]], ⟨1⟩⟩,
            ⟨some [some 1, some 99, none, some 2], none, ⟨2⟩⟩,
            ⟨some [some 1, some 2], none, ⟨3⟩⟩]),
       (5, [⟨none, some [[some 4], [some 2]], ⟨4⟩⟩, ⟨some [some 1], none, ⟨7⟩⟩])] }

/-- The catalog `exampleData` with other later variants for `torch`. -/
def exampleData2 : McData :=
  { exampleData with
    recipes :=
      [(3, [⟨some [some 2, none, some 98], none, ⟨1⟩⟩]),
       (5, [⟨none, some [[some 4], [some 2]], ⟨4⟩⟩])] }

/-- A catalog with an item named like a member of `Object.prototype`: `sign` has the
single variant `[constructor, stick, constructor]` with result count 3. -/
def constructorData : McData :=
  { items := [(1, ⟨1, "constructor"⟩), (2, ⟨2, "stick"⟩), (3, ⟨3, "sign"⟩)]
    itemsByName :=
      [("constructor", ⟨1, "constructor"⟩), ("stick", ⟨2, "stick"⟩), ("sign", ⟨3, "sign"⟩)]
    recipes := [(3, [⟨some [some 1, some 2, some 1], none, ⟨3⟩⟩])] }

/-- A catalog with an item named `__proto__` and two items with integer-like names. -/
def protoData : McData :=
  { items := [(1, ⟨1, "b"⟩), (2, ⟨2, "__proto__"⟩), (3, ⟨3, "7"⟩), (4, ⟨4, "3"⟩)]
    itemsByName :=
      [("b", ⟨1, "b"⟩), ("__proto__", ⟨2, "__proto__"⟩), ("7", ⟨3, "7"⟩), ("3", ⟨4, "3"⟩)]
    recipes := [] }

/-- A catalog with the single item `planks`. -/
def oneItemData : McData :=
  { items := [(1, ⟨1, "planks"⟩)]
    itemsByName := [("planks", ⟨1, "planks"⟩)]
    recipes := [] }

/-- Every image file is already on disk; `page.goto` never throws. -/
def allOnDisk : DownloadEnv :=
  { existsSync := fun _ _ => true
    gotoThrows := fun _ _ => false }

/-! ## Dictionary lemmas -/

theorem mem_objKeys_iff {κ α : Type} [DecidableEq κ] (o : List (κ × α)) (k : κ) :
    k ∈ objKeys o ↔ (objGet o k).isSome = true := by
  induction o with
  | nil => simp [objKeys, objGet]
  | cons e rest ih =>
    obtain ⟨k0, v0⟩ := e
    by_cases h : k0 = k
    · simp [objKeys, objGet, h]
    · have h2 : ¬ k = k0 := fun h3 => h h3.symm
      simp only [objKeys] at ih
      simp [objKeys, objGet, h, h2, ih]

theorem objGet_eq_none_iff {κ α : Type} [DecidableEq κ] (o : List (κ × α)) (k : κ) :
    objGet o k = none ↔ k ∉ objKeys o := by
  rw [mem_objKeys_iff]
  cases objGet o k <;> simp

theorem mem_of_objGet {κ α : Type} [DecidableEq κ] (o : List (κ × α)) (k : κ) (v : α)
    (h : objGet o k = some v) : (k, v) ∈ o := by
  induction o with
  | nil => simp [objGet] at h
  | cons e rest ih =>
    obtain ⟨k0, v0⟩ := e
    by_cases hk : k0 = k
    · subst hk
      simp only [objGet, if_true, Option.some.injEq] at h
      subst h
      exact List.mem_cons_self _ _
    · simp only [objGet, hk, if_false] at h
      exact List.mem_cons_of_mem _ (ih h)

theorem objGet_ownReplace {α : Type} (o : List (String × α)) (k k1 : String) (v : α)
    (hk : (objGet o k).isSome = true) :
    objGet (ownReplace o k v) k1 = if k = k1 then some v else objGet o k1 := by
  induction o with
  | nil => simp [objGet] at hk
  | cons e rest ih =>
    obtain ⟨k0, v0⟩ := e
    by_cases h : k0 = k
    · subst h
      by_cases h1 : k0 = k1
      · simp [ownReplace, objGet, h1]
      · simp [ownReplace, objGet, h1]
    · have hrest : (objGet rest k).isSome = true := by simpa [objGet, h] using hk
      by_cases h1 : k0 = k1
      · subst h1
        simp [ownReplace, objGet, h, Ne.symm h]
      · simp [ownReplace, objGet, h, h1, ih hrest]

theorem objKeys_ownReplace {α : Type} (o : List (String × α)) (k : String) (v : α) :
    objKeys (ownReplace o k v) = objKeys o := by
  induction o with
  | nil => rfl
  | cons e rest ih =>
    obtain ⟨k0, v0⟩ := e
    simp only [objKeys] at ih
    by_cases h : k0 = k
    · simp [ownReplace, objKeys, h]
    · simp [ownReplace, objKeys, h, ih]

theorem objGet_ownInsertIndex {α : Type} (o : List (String × α)) (n : Nat) (k k1 : String)
    (v : α) (hk : objGet o k = none) :
    objGet (ownInsertIndex n k v o) k1 = if k = k1 then some v else objGet o k1 := by
  induction o with
  | nil => simp [ownInsertIndex, objGet]
  | cons e rest ih =>
    obtain ⟨k0, v0⟩ := e
    have h0 : ¬ k0 = k := by
      intro h
      simp [objGet, h] at hk
    have hrest : objGet rest k = none := by simpa [objGet, h0] using hk
    unfold ownInsertIndex
    cases arrayIndex k0 with
    | none => simp [objGet]
    | some m =>
      by_cases hm : m < n
      · simp only [hm, if_true, objGet, ih hrest]
        by_cases h1 : k0 = k1
        · subst h1
          simp [Ne.symm h0]
        · simp [h1]
      · simp [hm, objGet]

theorem objGet_append_entry {α : Type} (o : List (String × α)) (k k1 : String) (v : α)
    (hk : objGet o k = none) :
    objGet (o ++ [(k, v)]) k1 = if k = k1 then some v else objGet o k1 := by
  induction o with
  | nil => simp [objGet]
  | cons e rest ih =>
    obtain ⟨k0, v0⟩ := e
    have h0 : ¬ k0 = k := by
      intro h
      simp [objGet, h] at hk
    have hrest : objGet rest k = none := by simpa [objGet, h0] using hk
    by_cases h1 : k0 = k1
    · subst h1
      simp [objGet, Ne.symm h0]
    · simp [objGet, h1, ih hrest]

theorem objGet_objSet {α : Type} (o : List (String × α)) (k k1 : String) (v : α) :
    objGet (objSet o k v) k1 = if k = k1 then some v else objGet o k1 := by
  unfold objSet
  by_cases hk : (objGet o k).isSome = true
  · rw [if_pos hk]
    exact objGet_ownReplace o k k1 v hk
  · rw [if_neg hk]
    have hnone : objGet o k = none := by
      cases h : objGet o k with
      | none => rfl
      | some x => simp [h] at hk
    cases arrayIndex k with
    | none => exact objGet_append_entry o k k1 v hnone
    | some n => exact objGet_ownInsertIndex o n k k1 v hnone

theorem objKeys_ownInsertIndex_perm {α : Type} (o : List (String × α)) (n : Nat) (k : String)
    (v : α) : (objKeys (ownInsertIndex n k v o)).Perm (k :: objKeys o) := by
  induction o with
  | nil => simp [ownInsertIndex, objKeys]
  | cons e rest ih =>
    obtain ⟨k0, v0⟩ := e
    unfold ownInsertIndex
    cases arrayIndex k0 with
    | none => simp [objKeys]
    | some m =>
      by_cases hm : m < n
      · simp only [hm, if_true]
        simp only [objKeys, List.map_cons] at ih ⊢
        exact (List.Perm.cons k0 ih).trans (List.Perm.swap k k0 _)
      · simp [hm, objKeys]

theorem objKeys_objSet_perm {α : Type} (o : List (String × α)) (k : String) (v : α)
    (hk : k ∉ objKeys o) : (objKeys (objSet o k v)).Perm (k :: objKeys o) := by
  have hnone : (objGet o k).isSome = false := by
    rw [← objGet_eq_none_iff] at hk
    simp [hk]
  unfold objSet
  simp only [hnone, Bool.false_eq_true, if_false]
  cases arrayIndex k with
  | none =>
    simp only [objKeys, List.map_append, List.map_cons, List.map_nil]
    exact List.perm_append_singleton k _
  | some n => exact objKeys_ownInsertIndex_perm o n k v

theorem objKeys_objSet_of_mem {α : Type} (o : List (String × α)) (k : String) (v : α)
    (hk : k ∈ objKeys o) : objKeys (objSet o k v) = objKeys o := by
  have hsome : (objGet o k).isSome = true := (mem_objKeys_iff o k).mp hk
  unfold objSet
  rw [if_pos hsome]
  exact objKeys_ownReplace o k v

theorem objKeys_objSet_nodup {α : Type} (o : List (String × α)) (k : String) (v : α)
    (h : (objKeys o).Nodup) : (objKeys (objSet o k v)).Nodup := by
  by_cases hk : k ∈ objKeys o
  · rw [objKeys_objSet_of_mem o k v hk]
    exact h
  · rw [(objKeys_objSet_perm o k v hk).nodup_iff]
    exact List.nodup_cons.mpr ⟨hk, h⟩

theorem stringKeys_ownInsertIndex {α : Type} (o : List (String × α)) (n : Nat) (k : String)
    (v : α) (hk : arrayIndex k = some n) :
    stringKeys (ownInsertIndex n k v o) = stringKeys o := by
  induction o with
  | nil => simp [ownInsertIndex, stringKeys, objKeys, hk]
  | cons e rest ih =>
    obtain ⟨k0, v0⟩ := e
    unfold ownInsertIndex
    cases h0 : arrayIndex k0 with
    | none => simp [stringKeys, objKeys, hk, h0, List.filter_cons]
    | some m =>
      by_cases hm : m < n
      · simp only [hm, if_true]
        simp only [stringKeys, objKeys, List.map_cons, List.filter_cons] at ih ⊢
        simp [h0, ih]
      · simp [hm, stringKeys, objKeys, hk, h0, List.filter_cons]

theorem stringKeys_objSet {α : Type} (o : List (String × α)) (k : String) (v : α) :
    stringKeys (objSet o k v) =
      if k ∈ objKeys o then stringKeys o
      else if arrayIndex k = none then stringKeys o ++ [k] else stringKeys o := by
  by_cases hk : k ∈ objKeys o
  · rw [if_pos hk]
    unfold stringKeys
    rw [objKeys_objSet_of_mem o k v hk]
  · rw [if_neg hk]
    have hnone : (objGet o k).isSome = false := by
      rw [← objGet_eq_none_iff] at hk
      simp [hk]
    unfold objSet
    simp only [hnone, Bool.false_eq_true, if_false]
    cases hidx : arrayIndex k with
    | none => simp [stringKeys, objKeys, List.filter_append, hidx]
    | some n => simpa using stringKeys_ownInsertIndex o n k v hidx

theorem pairwise_ownInsertIndex {α : Type} (o : List (String × α)) (n : Nat) (k : String)
    (v : α) (hk : arrayIndex k = some n) (h : (objKeys o).Pairwise KeyBefore) :
    (objKeys (ownInsertIndex n k v o)).Pairwise KeyBefore := by
  induction o with
  | nil => simp [ownInsertIndex, objKeys]
  | cons e rest ih =>
    obtain ⟨k0, v0⟩ := e
    simp only [objKeys, List.map_cons, List.pairwise_cons] at h
    obtain ⟨hhead, htail⟩ := h
    unfold ownInsertIndex
    cases h0 : arrayIndex k0 with
    | none =>
      simp only [objKeys, List.map_cons, List.pairwise_cons]
      refine ⟨?_, hhead, htail⟩
      intro x hx n1 hn1
      rcases List.mem_cons.mp hx with hx | hx
      · subst hx
        rw [h0] at hn1
        cases hn1
      · obtain ⟨m, hm, _⟩ := hhead x hx n1 hn1
        rw [h0] at hm
        cases hm
    | some m =>
      by_cases hm : m < n
      · simp only [hm, if_true, objKeys, List.map_cons, List.pairwise_cons]
        refine ⟨?_, ih htail⟩
        intro x hx
        have hx2 := (objKeys_ownInsertIndex_perm rest n k v).subset hx
        rcases List.mem_cons.mp hx2 with hx3 | hx3
        · subst hx3
          intro n1 hn1
          rw [hk] at hn1
          cases hn1
          exact ⟨m, h0, Nat.le_of_lt hm⟩
        · exact hhead x hx3
      · simp only [hm, if_false, objKeys, List.map_cons, List.pairwise_cons]
        refine ⟨?_, hhead, htail⟩
        intro x hx n1 hn1
        rcases List.mem_cons.mp hx with hx | hx
        · subst hx
          rw [h0] at hn1
          cases hn1
          exact ⟨n, hk, by omega⟩
        · obtain ⟨m1, hm1, hle⟩ := hhead x hx n1 hn1
          rw [h0] at hm1
          cases hm1
          exact ⟨n, hk, by omega⟩

theorem pairwise_objSet {α : Type} (o : List (String × α)) (k : String) (v : α)
    (h : (objKeys o).Pairwise KeyBefore) : (objKeys (objSet o k v)).Pairwise KeyBefore := by
  by_cases hk : k ∈ objKeys o
  · rw [objKeys_objSet_of_mem o k v hk]
    exact h
  · have hnone : (objGet o k).isSome = false := by
      rw [← objGet_eq_none_iff] at hk
      simp [hk]
    unfold objSet
    simp only [hnone, Bool.false_eq_true, if_false]
    cases hidx : arrayIndex k with
    | some n => exact pairwise_ownInsertIndex o n k v hidx h
    | none =>
      simp only [objKeys, List.map_append, List.map_cons, List.map_nil]
      rw [List.pairwise_append]
      refine ⟨h, List.pairwise_singleton _ _, ?_⟩
      intro a _ b hb n1 hn1
      rw [List.mem_singleton] at hb
      subst hb
      rw [hidx] at hn1
      cases hn1

/-! ## The loops in closed form -/

theorem foldl_push_eq_map {α β : Type} (f : α → β) (l : List α) (acc : List β) :
    l.foldl (fun out a => out ++ [f a]) acc = acc ++ l.map f := by
  induction l generalizing acc with
  | nil => simp
  | cons a rest ih => simp [ih]

theorem foldl_filter_of_skip {α β : Type} (f : β → α → β) (p : α → Bool)
    (hskip : ∀ acc a, p a = false → f acc a = acc) (l : List α) (acc : β) :
    (l.filter p).foldl f acc = l.foldl f acc := by
  induction l generalizing acc with
  | nil => rfl
  | cons a rest ih =>
    cases hp : p a
    · simp [List.filter_cons, hp, hskip acc a hp, ih]
    · simp [List.filter_cons, hp, ih]

theorem getAllItems_none (mcdata : McData) :
    getAllItems mcdata none = mcdata.items.map Prod.snd := by
  simp only [getAllItems, List.not_mem_nil, if_false]
  simpa using foldl_push_eq_map (Prod.snd : Nat × Item → Item) mcdata.items []

theorem getItemCraftingRecipes_eq (mcdata : McData) (itemName : String) :
    getItemCraftingRecipes mcdata itemName =
      (idGet mcdata.recipes (getItemId mcdata itemName)).map
        (fun rs => rs.map (recipeEntry mcdata)) := by
  simp only [getItemCraftingRecipes]
  cases h : idGet mcdata.recipes (getItemId mcdata itemName) with
  | none => rfl
  | some rs => simpa using foldl_push_eq_map (recipeEntry mcdata) rs []

theorem getElem?_recipes {mcdata : McData} {itemName : String} {rs : List RawRecipe}
    {i : Nat} {r : RawRecipe}
    (hrs : idGet mcdata.recipes (getItemId mcdata itemName) = some rs)
    (hr : rs[i]? = some r) :
    getItemCraftingRecipes mcdata itemName = some (rs.map (recipeEntry mcdata)) ∧
      (rs.map (recipeEntry mcdata))[i]? = some (recipeEntry mcdata r) := by
  constructor
  · rw [getItemCraftingRecipes_eq, hrs]
    rfl
  · simp [List.getElem?_map, hr]

/-! ## The ingredient counter -/

theorem not_proto_of_not_member {n : String} (hn : n ∉ objectPrototypeMembers) :
    n ≠ "__proto__" := by
  intro h
  subst h
  exact hn (by decide)

theorem objGet_assignNumber_ne (recipe : List (String × JSNumber)) {m n : String}
    (v : JSNumber) (hne : m ≠ n) : objGet (assignNumber recipe m v) n = objGet recipe n := by
  unfold assignNumber
  by_cases hp : m = "__proto__"
  · rw [if_pos hp]
  · rw [if_neg hp, objGet_objSet, if_neg hne]

theorem objGet_assignNumber_self (recipe : List (String × JSNumber)) {n : String}
    (v : JSNumber) (hn : n ≠ "__proto__") : objGet (assignNumber recipe n v) n = some v := by
  unfold assignNumber
  rw [if_neg hn, objGet_objSet, if_pos rfl]

theorem objGet_countIngredient_of_ne (mcdata : McData) (recipe : List (String × JSNumber))
    (e : Option Nat) (n : String) (he : getItemName mcdata e ≠ some n) :
    objGet (countIngredient mcdata recipe e) n = objGet recipe n := by
  unfold countIngredient
  cases hname : getItemName mcdata e with
  | none => rfl
  | some m =>
    have hmn : m ≠ n := by
      intro h
      exact he (by rw [hname, h])
    simp only []
    rw [objGet_assignNumber_ne _ _ hmn]
    by_cases hf : isFalsy (readProperty recipe m) = true
    · rw [if_pos hf, objGet_assignNumber_ne _ _ hmn]
    · rw [if_neg hf]

theorem objGet_countIngredient_plain (mcdata : McData) (recipe : List (String × JSNumber))
    (e : Option Nat) (n : String) (hn : n ∉ objectPrototypeMembers)
    (he : getItemName mcdata e = some n) :
    objGet (countIngredient mcdata recipe e) n =
      some (.num (storedCount (objGet recipe n) + 1)) := by
  have hp : n ≠ "__proto__" := not_proto_of_not_member hn
  unfold countIngredient
  rw [he]
  simp only []
  rw [objGet_assignNumber_self _ _ hp]
  cases hg : objGet recipe n with
  | none =>
    simp [readProperty, hg, hn, isFalsy, toNumber, objGet_assignNumber_self _ _ hp,
      JSNumber.succ, storedCount]
  | some v =>
    cases v with
    | nan =>
      simp [readProperty, hg, isFalsy, toNumber, objGet_assignNumber_self _ _ hp,
        JSNumber.succ, storedCount]
    | num k =>
      cases k with
      | zero =>
        simp [readProperty, hg, isFalsy, toNumber, objGet_assignNumber_self _ _ hp,
          JSNumber.succ, storedCount]
      | succ j =>
        simp [readProperty, hg, isFalsy, toNumber, JSNumber.succ, storedCount]

theorem objGet_foldl_countIngredient_zero (mcdata : McData) (l : List (Option Nat))
    (recipe : List (String × JSNumber)) (n : String) (h0 : occurrences mcdata l n = 0) :
    objGet (l.foldl (countIngredient mcdata) recipe) n = objGet recipe n := by
  induction l generalizing recipe with
  | nil => rfl
  | cons e rest ih =>
    have he : getItemName mcdata e ≠ some n := by
      intro h
      simp [occurrences, List.countP_cons, h] at h0
    have hrest : occurrences mcdata rest n = 0 := by
      simpa [occurrences, List.countP_cons, he] using h0
    rw [List.foldl_cons, ih _ hrest, objGet_countIngredient_of_ne mcdata recipe e n he]

theorem objGet_foldl_countIngredient_plain (mcdata : McData) (l : List (Option Nat))
    (recipe : List (String × JSNumber)) (n : String) (hn : n ∉ objectPrototypeMembers) :
    objGet (l.foldl (countIngredient mcdata) recipe) n =
      if occurrences mcdata l n = 0 then objGet recipe n
      else some (.num (storedCount (objGet recipe n) + occurrences mcdata l n)) := by
  induction l generalizing recipe with
  | nil => simp [occurrences]
  | cons e rest ih =>
    rw [List.foldl_cons, ih]
    by_cases he : getItemName mcdata e = some n
    · have hocc : occurrences mcdata (e :: rest) n = occurrences mcdata rest n + 1 := by
        simp [occurrences, List.countP_cons, he]
      rw [hocc, objGet_countIngredient_plain mcdata recipe e n hn he]
      by_cases h0 : occurrences mcdata rest n = 0
      · simp [h0]
      · simp only [h0, if_false, Nat.succ_ne_zero, storedCount]
        congr 2
        omega
    · have hocc : occurrences mcdata (e :: rest) n = occurrences mcdata rest n := by
        simp [occurrences, List.countP_cons, he]
      rw [hocc, objGet_countIngredient_of_ne mcdata recipe e n he]

theorem objGet_countIngredients_plain (mcdata : McData) (l : List (Option Nat)) (n : String)
    (hn : n ∉ objectPrototypeMembers) :
    objGet (countIngredients mcdata l) n =
      if occurrences mcdata l n = 0 then none else some (.num (occurrences mcdata l n)) := by
  unfold countIngredients
  rw [objGet_foldl_countIngredient_plain mcdata l [] n hn]
  simp [objGet, storedCount]

theorem occurrences_pos_iff (mcdata : McData) (l : List (Option Nat)) (n : String) :
    0 < occurrences mcdata l n ↔ ∃ e ∈ l, getItemName mcdata e = some n := by
  simp [occurrences, List.countP_pos_iff]

theorem exists_of_mem_objKeys_countIngredients (mcdata : McData) (l : List (Option Nat))
    (n : String) (hn : n ∈ objKeys (countIngredients mcdata l)) :
    ∃ e ∈ l, getItemName mcdata e = some n := by
  rw [← occurrences_pos_iff]
  by_contra h0
  have hz : occurrences mcdata l n = 0 := by omega
  rw [mem_objKeys_iff] at hn
  unfold countIngredients at hn
  rw [objGet_foldl_countIngredient_zero mcdata l [] n hz] at hn
  simp [objGet] at hn

theorem mem_objKeys_countIngredients_plain (mcdata : McData) (l : List (Option Nat))
    (n : String) (hn : n ∉ objectPrototypeMembers) :
    n ∈ objKeys (countIngredients mcdata l) ↔ ∃ e ∈ l, getItemName mcdata e = some n := by
  rw [mem_objKeys_iff, objGet_countIngredients_plain mcdata l n hn, ← occurrences_pos_iff]
  by_cases h0 : occurrences mcdata l n = 0
  · simp [h0]
  · simp [h0, Nat.pos_of_ne_zero h0]

theorem objGet_countIngredients_of_mem (mcdata : McData) (l : List (Option Nat)) (n : String)
    (hn : n ∉ objectPrototypeMembers) (hmem : n ∈ objKeys (countIngredients mcdata l)) :
    objGet (countIngredients mcdata l) n = some (.num (occurrences mcdata l n)) := by
  rw [mem_objKeys_iff, objGet_countIngredients_plain mcdata l n hn] at hmem
  rw [objGet_countIngredients_plain mcdata l n hn]
  by_cases h0 : occurrences mcdata l n = 0
  · simp [h0] at hmem
  · simp [h0]

theorem succ_ne_zero (v : JSNumber) : v.succ ≠ .num 0 := by
  cases v <;> simp [JSNumber.succ]

theorem countIngredient_no_zero (mcdata : McData) (recipe : List (String × JSNumber))
    (e : Option Nat) (h : ∀ n, objGet recipe n ≠ some (.num 0)) :
    ∀ n, objGet (countIngredient mcdata recipe e) n ≠ some (.num 0) := by
  intro n
  by_cases he : getItemName mcdata e = some n
  · unfold countIngredient
    rw [he]
    simp only []
    by_cases hp : n = "__proto__"
    · simp only [assignNumber, hp, if_true]
      split
      · exact h _
      · exact h _
    · rw [objGet_assignNumber_self _ _ hp]
      intro hz
      exact succ_ne_zero _ (Option.some.inj hz)
  · rw [objGet_countIngredient_of_ne mcdata recipe e n he]
    exact h n

theorem foldl_countIngredient_no_zero (mcdata : McData) (l : List (Option Nat))
    (recipe : List (String × JSNumber)) (h : ∀ n, objGet recipe n ≠ some (.num 0)) :
    ∀ n, objGet (l.foldl (countIngredient mcdata) recipe) n ≠ some (.num 0) := by
  induction l generalizing recipe with
  | nil => exact h
  | cons e rest ih => exact ih _ (countIngredient_no_zero mcdata recipe e h)

theorem one_le_of_objGet_countIngredients (mcdata : McData) (l : List (Option Nat))
    (n : String) (k : Nat) (hk : objGet (countIngredients mcdata l) n = some (.num k)) :
    1 ≤ k := by
  have hz := foldl_countIngredient_no_zero mcdata l [] (by simp [objGet]) n
  cases k with
  | zero => exact absurd hk hz
  | succ j => omega

theorem assignNumber_nodup (recipe : List (String × JSNumber)) (n : String) (v : JSNumber)
    (h : (objKeys recipe).Nodup) : (objKeys (assignNumber recipe n v)).Nodup := by
  unfold assignNumber
  split
  · exact h
  · exact objKeys_objSet_nodup _ _ _ h

theorem countIngredient_nodup (mcdata : McData) (recipe : List (String × JSNumber))
    (e : Option Nat) (h : (objKeys recipe).Nodup) :
    (objKeys (countIngredient mcdata recipe e)).Nodup := by
  unfold countIngredient
  cases getItemName mcdata e with
  | none => exact h
  | some m =>
    apply assignNumber_nodup
    split
    · exact assignNumber_nodup _ _ _ h
    · exact h

theorem countIngredients_nodup (mcdata : McData) (l : List (Option Nat)) :
    (objKeys (countIngredients mcdata l)).Nodup := by
  unfold countIngredients
  have key : ∀ (recipe : List (String × JSNumber)), (objKeys recipe).Nodup →
      (objKeys (l.foldl (countIngredient mcdata) recipe)).Nodup := by
    induction l with
    | nil => intro recipe h; exact h
    | cons e rest ih =>
      intro recipe h
      exact ih _ (countIngredient_nodup mcdata recipe e h)
  exact key [] (by simp [objKeys])

theorem countIngredients_filter (mcdata : McData) (p : Option Nat → Bool)
    (hp : ∀ e, p e = false → getItemName mcdata e = none) (l : List (Option Nat)) :
    countIngredients mcdata (l.filter p) = countIngredients mcdata l := by
  unfold countIngredients
  apply foldl_filter_of_skip
  intro acc e he
  simp [countIngredient, hp e he]

theorem getItemName_congr {mcdata mcdata2 : McData} (h : mcdata2.items = mcdata.items)
    (e : Option Nat) : getItemName mcdata2 e = getItemName mcdata e := by
  simp [getItemName, h]

theorem countIngredients_congr {mcdata mcdata2 : McData} (h : mcdata2.items = mcdata.items)
    (l : List (Option Nat)) : countIngredients mcdata2 l = countIngredients mcdata l := by
  have hf : countIngredient mcdata2 = countIngredient mcdata := by
    funext recipe e
    simp [countIngredient, getItemName_congr h]
  simp [countIngredients, hf]

/-! ## The recipe normalizer: claims C1, C2, C3, C8 -/

/-- C1, as stated, fails on `constructorData`: the list of the variant of `sign` has two
entries that resolve to `constructor`, and the map stores 1 under that name.  The first
`!recipe[name]` sees the inherited function, so `++` stores `NaN`; the second occurrence
restarts from 0. -/
theorem constructor_count_is_short :
    getItemCraftingRecipes constructorData "sign" =
        some [([("constructor", JSNumber.num 1), ("stick", JSNumber.num 1)], ⟨3⟩)] ∧
      occurrences constructorData [some 1, some 2, some 1] "constructor" = 2 ∧
      ¬ ∃ out m, getItemCraftingRecipes constructorData "sign" = some out ∧
          out[0]? = some (m, { craftedCount := 3 }) ∧
          objGet m "constructor" = some (JSNumber.num 2) := by
  have hval : getItemCraftingRecipes constructorData "sign" =
      some [([("constructor", JSNumber.num 1), ("stick", JSNumber.num 1)], ⟨3⟩)] := by
    decide
  refine ⟨hval, by decide, ?_⟩
  rintro ⟨out, m, hout, hm, hget⟩
  rw [hval] at hout
  cases hout
  simp only [List.getElem?_cons_zero, Option.some.injEq, Prod.mk.injEq] at hm
  obtain ⟨hm, _⟩ := hm
  subst hm
  revert hget
  decide

/-- C1 amended: for a variant `r` with an explicit ingredient list `l`, at position `i` of
the recipes of `itemName`, `getItemCraftingRecipes` returns at position `i` the pair of a
map `m` and `craftedCount = r.result.count`.  Every key of `m` is a name some entry of `l`
resolves to through `getItemName`; a name that is not the name of a member of
`Object.prototype` is a key of `m` exactly when some entry of `l` resolves to it, and is
mapped to the number of such entries; every stored number is at least 1, and no key is
stored twice. -/
theorem ingredient_list_counts (mcdata : McData) (itemName : String) (rs : List RawRecipe)
    (i : Nat) (r : RawRecipe) (l : List (Option Nat))
    (hrs : idGet mcdata.recipes (getItemId mcdata itemName) = some rs)
    (hr : rs[i]? = some r) (hl : r.ingredients = some l) :
    ∃ out m, getItemCraftingRecipes mcdata itemName = some out ∧
      out[i]? = some (m, { craftedCount := r.result.count }) ∧
      (∀ n, n ∈ objKeys m → ∃ e ∈ l, getItemName mcdata e = some n) ∧
      (∀ n, n ∉ objectPrototypeMembers →
        (n ∈ objKeys m ↔ ∃ e ∈ l, getItemName mcdata e = some n)) ∧
      (∀ n, n ∉ objectPrototypeMembers → n ∈ objKeys m →
        objGet m n = some (.num (occurrences mcdata l n))) ∧
      (∀ n k, objGet m n = some (.num k) → 1 ≤ k) ∧
      (objKeys m).Nodup := by
  obtain ⟨hout, hi⟩ := getElem?_recipes hrs hr
  have hing : ingredientsOf r = l := by simp [ingredientsOf, hl]
  refine ⟨_, countIngredients mcdata l, hout, ?_,
    exists_of_mem_objKeys_countIngredients mcdata l,
    mem_objKeys_countIngredients_plain mcdata l,
    objGet_countIngredients_of_mem mcdata l,
    fun n k => one_le_of_objGet_countIngredients mcdata l n k,
    countIngredients_nodup mcdata l⟩
  rw [hi, recipeEntry, hing]

/-- Witness of the amended C1 on `exampleData`: the list `[A, A, B]` with result count 4
gives `{A: 2, B: 1}` and `craftedCount` 4. -/
theorem ingredient_list_counts_witness :
    getItemCraftingRecipes exampleData "ladder" =
        some [([("planks", JSNumber.num 2), ("stick", JSNumber.num 1)], ⟨4⟩),
              ([("planks", JSNumber.num 1), ("stick", JSNumber.num 1)], ⟨1⟩),
              ([("planks", JSNumber.num 1), ("stick", JSNumber.num 1)], ⟨2⟩),
              ([("planks", JSNumber.num 1), ("stick", JSNumber.num 1)], ⟨3⟩)] ∧
      ∃ out m, getItemCraftingRecipes exampleData "ladder" = some out ∧
        out[0]? = some (m, { craftedCount := 4 }) ∧
        (∀ n, n ∈ objKeys m →
          ∃ e ∈ [some 1, some 1, some 2], getItemName exampleData e = some n) ∧
        (∀ n, n ∉ objectPrototypeMembers →
          (n ∈ objKeys m ↔
            ∃ e ∈ [some 1, some 1, some 2], getItemName exampleData e = some n)) ∧
        (∀ n, n ∉ objectPrototypeMembers → n ∈ objKeys m →
          objGet m n = some (.num (occurrences exampleData [some 1, some 1, some 2] n))) ∧
        (∀ n k, objGet m n = some (.num k) → 1 ≤ k) ∧
        (objKeys m).Nodup :=
  ⟨by decide,
   ingredient_list_counts exampleData "ladder"
     [⟨some [some 1, some 1, some 2], none, ⟨4⟩⟩,
      ⟨none, some [[some 1, none], [none, some 2]], ⟨1⟩⟩,
      ⟨some [some 1, some 99, none, some 2], none, ⟨2⟩⟩,
      ⟨some [some 1, some 2], none, ⟨3⟩⟩]
     0 ⟨some [some 1, some 1, some 2], none, ⟨4⟩⟩ [some 1, some 1, some 2]
     (by decide) (by decide) rfl⟩

/-- C2: for a shaped-grid variant `r` (no `ingredients`, `inShape = grid`) at position `i`
of the recipes of `itemName`, and an ingredient-list variant `r2` whose list is the row-major
concatenation of the non-null cells of `grid`, at position `j` of the recipes of `itemName2`
in a catalog with the same items, `getItemCraftingRecipes` returns the same ingredients map
for both. -/
theorem shaped_grid_same_as_list (mcdata mcdata2 : McData)
    (hitems : mcdata2.items = mcdata.items) (itemName itemName2 : String)
    (rs rs2 : List RawRecipe) (i j : Nat) (r r2 : RawRecipe) (grid : List (List (Option Nat)))
    (hrs : idGet mcdata.recipes (getItemId mcdata itemName) = some rs)
    (hr : rs[i]? = some r) (hl : r.ingredients = none) (hg : r.inShape = some grid)
    (hrs2 : idGet mcdata2.recipes (getItemId mcdata2 itemName2) = some rs2)
    (hr2 : rs2[j]? = some r2)
    (hl2 : r2.ingredients = some (grid.flatten.filter Option.isSome)) :
    ∃ out out2 m, getItemCraftingRecipes mcdata itemName = some out ∧
      getItemCraftingRecipes mcdata2 itemName2 = some out2 ∧
      out[i]? = some (m, { craftedCount := r.result.count }) ∧
      out2[j]? = some (m, { craftedCount := r2.result.count }) := by
  obtain ⟨hout, hi⟩ := getElem?_recipes hrs hr
  obtain ⟨hout2, hj⟩ := getElem?_recipes hrs2 hr2
  have hing : ingredientsOf r = grid.flatten := by simp [ingredientsOf, hl, hg]
  have hing2 : ingredientsOf r2 = grid.flatten.filter Option.isSome := by
    simp [ingredientsOf, hl2]
  have hnull : ∀ e : Option Nat, e.isSome = false → getItemName mcdata e = none := by
    intro e he
    cases e with
    | none => rfl
    | some id => simp at he
  refine ⟨_, _, countIngredients mcdata grid.flatten, hout, hout2, ?_, ?_⟩
  · rw [hi, recipeEntry, hing]
  · rw [hj, recipeEntry, hing2, countIngredients_congr hitems,
      countIngredients_filter mcdata Option.isSome hnull]

/-- Witness of C2 on `exampleData`: the grid `[[A, null], [null, B]]` (variant 1 of
`ladder`) and the list `[A, B]` (variant 3). -/
theorem shaped_grid_same_as_list_witness :
    ∃ out out2 m, getItemCraftingRecipes exampleData "ladder" = some out ∧
      getItemCraftingRecipes exampleData "ladder" = some out2 ∧
      out[1]? = some (m, { craftedCount := 1 }) ∧
      out2[3]? = some (m, { craftedCount := 3 }) :=
  shaped_grid_same_as_list exampleData exampleData rfl "ladder" "ladder"
    [⟨some [some 1, some 1, some 2], none, ⟨4⟩⟩,
      ⟨none, some [[some 1, none], [none, some 2]], ⟨1⟩⟩,
      ⟨some [some 1, some 99, none, some 2], none, ⟨2⟩⟩,
      ⟨some [some 1, some 2], none, ⟨3⟩⟩]
    [⟨some [some 1, some 1, some 2], none, ⟨4⟩⟩,
      ⟨none, some [[some 1, none], [none, some 2]], ⟨1⟩⟩,
      ⟨some [some 1, some 99, none, some 2], none, ⟨2⟩⟩,
      ⟨some [some 1, some 2], none, ⟨3⟩⟩]
    1 3 ⟨none, some [[some 1, none], [none, some 2]], ⟨1⟩⟩ ⟨some [some 1, some 2], none, ⟨3⟩⟩
    [[some 1, none], [none, some 2]]
    (by decide) (by decide) rfl rfl (by decide) (by decide) (by decide)

/-- C3: let `r` be any variant at position `i` of the recipes of `itemName`, and `r2` the
same variant with the entries `getItemName` cannot resolve removed, at position `j` of the
recipes of `itemName2` in a catalog with the same items.  `getItemCraftingRecipes` returns a
result for both, one pair per variant, with the same ingredients map `m` at `i` and at `j`:
every key and every count of `m` is unchanged by the removal.  Every key of `m` is the
name of an entry of `r` that `getItemName` resolves, so an unresolvable id contributes no
key. -/
theorem unresolvable_entries_dropped (mcdata mcdata2 : McData)
    (hitems : mcdata2.items = mcdata.items) (itemName itemName2 : String)
    (rs rs2 : List RawRecipe) (i j : Nat) (r r2 : RawRecipe)
    (hrs : idGet mcdata.recipes (getItemId mcdata itemName) = some rs)
    (hr : rs[i]? = some r)
    (hrs2 : idGet mcdata2.recipes (getItemId mcdata2 itemName2) = some rs2)
    (hr2 : rs2[j]? = some r2)
    (hdrop : ingredientsOf r2 = (ingredientsOf r).filter (resolvable mcdata)) :
    ∃ out out2 m, getItemCraftingRecipes mcdata itemName = some out ∧
      getItemCraftingRecipes mcdata2 itemName2 = some out2 ∧
      out.length = rs.length ∧
      out[i]? = some (m, { craftedCount := r.result.count }) ∧
      out2[j]? = some (m, { craftedCount := r2.result.count }) ∧
      (∀ n, n ∈ objKeys m →
        ∃ e ∈ ingredientsOf r, resolvable mcdata e = true ∧ getItemName mcdata e = some n) := by
  obtain ⟨hout, hi⟩ := getElem?_recipes hrs hr
  obtain ⟨hout2, hj⟩ := getElem?_recipes hrs2 hr2
  have hres : ∀ e : Option Nat, resolvable mcdata e = false → getItemName mcdata e = none := by
    intro e he
    simpa [resolvable] using he
  refine ⟨_, _, countIngredients mcdata (ingredientsOf r), hout, hout2, by simp, ?_, ?_, ?_⟩
  · rw [hi, recipeEntry]
  · rw [hj, recipeEntry, hdrop, countIngredients_congr hitems,
      countIngredients_filter mcdata (resolvable mcdata) hres]
  · intro n hn
    obtain ⟨e, he, hname⟩ := exists_of_mem_objKeys_countIngredients mcdata _ n hn
    exact ⟨e, he, by simp [resolvable, hname], hname⟩

/-- Witness of C3 on `exampleData`: the list `[A, 99, null, B]` (variant 2 of `ladder`,
where 99 is no item id) and the list `[A, B]` (variant 3). -/
theorem unresolvable_entries_dropped_witness :
    getItemName exampleData (some 99) = none ∧
    ∃ out out2 m, getItemCraftingRecipes exampleData "ladder" = some out ∧
      getItemCraftingRecipes exampleData "ladder" = some out2 ∧
      out.length = 4 ∧
      out[2]? = some (m, { craftedCount := 2 }) ∧
      out2[3]? = some (m, { craftedCount := 3 }) ∧
      (∀ n, n ∈ objKeys m →
        ∃ e ∈ [some 1, some 99, none, some 2],
          resolvable exampleData e = true ∧ getItemName exampleData e = some n) :=
  ⟨by decide,
   unresolvable_entries_dropped exampleData exampleData rfl "ladder" "ladder"
    [⟨some [some 1, some 1, some 2], none, ⟨4⟩⟩,
      ⟨none, some [[some 1, none], [none, some 2]], ⟨1⟩⟩,
      ⟨some [some 1, some 99, none, some 2], none, ⟨2⟩⟩,
      ⟨some [some 1, some 2], none, ⟨3⟩⟩]
    [⟨some [some 1, some 1, some 2], none, ⟨4⟩⟩,
      ⟨none, some [[some 1, none], [none, some 2]], ⟨1⟩⟩,
      ⟨some [some 1, some 99, none, some 2], none, ⟨2⟩⟩,
      ⟨some [some 1, some 2], none, ⟨3⟩⟩]
    2 3 ⟨some [some 1, some 99, none, some 2], none, ⟨2⟩⟩ ⟨some [some 1, some 2], none, ⟨3⟩⟩
    (by decide) (by decide) (by decide) (by decide) (by decide)⟩

/-- C8: when the by-name table has no entry for `itemName`, `getItemId` returns `null` and
`getItemCraftingRecipes` returns `null`, for every recipe table. -/
theorem unknown_name_gives_null (mcdata : McData) (itemName : String)
    (h : objGet mcdata.itemsByName itemName = none) :
    getItemId mcdata itemName = none ∧ getItemCraftingRecipes mcdata itemName = none := by
  have hid : getItemId mcdata itemName = none := by simp [getItemId, h]
  exact ⟨hid, by simp [getItemCraftingRecipes, hid, idGet]⟩

/-- Witness of C8 on `exampleData`: the name `diamond` is not in the by-name table. -/
theorem unknown_name_gives_null_witness :
    objGet exampleData.itemsByName "diamond" = none ∧
      getItemId exampleData "diamond" = none ∧
      getItemCraftingRecipes exampleData "diamond" = none :=
  ⟨by decide, unknown_name_gives_null exampleData "diamond" (by decide)⟩

/-! ## The recipe table -/

theorem saveStep_eq (mcdata : McData) (recipes : RecipeTable) (item : Item) :
    saveStep mcdata recipes item =
      tableAssign recipes item.name (mainRecord mcdata item.name) := by
  unfold saveStep mainRecord
  split <;> rfl

theorem tableGet_tableAssign (recipes : RecipeTable) (k n : String) (record : RecipeRecord) :
    tableGet (tableAssign recipes k record) n =
      if k = n then some record else tableGet recipes n := by
  unfold tableGet tableAssign
  by_cases hk : k = "__proto__"
  · subst hk
    by_cases hn : n = "__proto__"
    · subst hn
      simp
    · simp [hn, Ne.symm hn]
  · by_cases hn : n = "__proto__"
    · subst hn
      simp [hk]
    · simp only [hk, hn, if_false, objGet_objSet]

theorem tableGet_foldl_saveStep (mcdata : McData) (items : List Item)
    (acc : RecipeTable) (n : String) :
    tableGet (items.foldl (saveStep mcdata) acc) n =
      if n ∈ items.map Item.name then some (mainRecord mcdata n) else tableGet acc n := by
  induction items generalizing acc with
  | nil => simp
  | cons item rest ih =>
    rw [List.foldl_cons, ih, saveStep_eq, tableGet_tableAssign]
    by_cases hrest : n ∈ rest.map Item.name
    · have hm : n ∈ (item :: rest).map Item.name := by
        rw [List.map_cons]
        exact List.mem_cons_of_mem _ hrest
      rw [if_pos hrest, if_pos hm]
    · rw [if_neg hrest]
      by_cases hn : item.name = n
      · subst hn
        simp
      · have hm : ¬ n ∈ (item :: rest).map Item.name := by
          rw [List.map_cons, List.mem_cons]
          rintro (h | h)
          · exact hn h.symm
          · exact hrest h
        rw [if_neg hm, if_neg hn]

theorem tableGet_saveRecipesToFile (mcdata : McData) (item : Item)
    (hmem : item ∈ getAllItems mcdata none) :
    tableGet (saveRecipesToFile mcdata) item.name = some (mainRecord mcdata item.name) := by
  unfold saveRecipesToFile
  rw [tableGet_foldl_saveStep, if_pos (List.mem_map_of_mem Item.name hmem)]

theorem mem_objKeys_objSet {α : Type} (o : List (String × α)) (k k1 : String) (v : α) :
    k1 ∈ objKeys (objSet o k v) ↔ k1 = k ∨ k1 ∈ objKeys o := by
  rw [mem_objKeys_iff, mem_objKeys_iff, objGet_objSet]
  by_cases h : k = k1
  · simp [h]
  · simp [h, Ne.symm h]

theorem mem_objKeys_tableAssign (recipes : RecipeTable) (k k1 : String)
    (record : RecipeRecord) :
    k1 ∈ objKeys (tableAssign recipes k record).own ↔
      (k1 = k ∧ k ≠ "__proto__") ∨ k1 ∈ objKeys recipes.own := by
  unfold tableAssign
  by_cases hk : k = "__proto__"
  · simp [hk]
  · simp [hk, mem_objKeys_objSet]

theorem mem_objKeys_foldl_saveStep (mcdata : McData) (items : List Item)
    (acc : RecipeTable) (k : String) :
    k ∈ objKeys (items.foldl (saveStep mcdata) acc).own ↔
      k ∈ objKeys acc.own ∨ (k ≠ "__proto__" ∧ k ∈ items.map Item.name) := by
  induction items generalizing acc with
  | nil => simp
  | cons item rest ih =>
    rw [List.foldl_cons, ih, saveStep_eq, mem_objKeys_tableAssign, List.map_cons,
      List.mem_cons]
    constructor
    · rintro ((⟨h1, h2⟩ | h) | ⟨h1, h2⟩)
      · exact Or.inr ⟨h1 ▸ h2, Or.inl h1⟩
      · exact Or.inl h
      · exact Or.inr ⟨h1, Or.inr h2⟩
    · rintro (h | ⟨h1, h2 | h2⟩)
      · exact Or.inl (Or.inr h)
      · exact Or.inl (Or.inl ⟨h2, h2 ▸ h1⟩)
      · exact Or.inr ⟨h1, h2⟩

theorem nodup_foldl_saveStep (mcdata : McData) (items : List Item)
    (acc : RecipeTable) (h : (objKeys acc.own).Nodup) :
    (objKeys (items.foldl (saveStep mcdata) acc).own).Nodup := by
  induction items generalizing acc with
  | nil => exact h
  | cons item rest ih =>
    rw [List.foldl_cons, saveStep_eq]
    apply ih
    unfold tableAssign
    split
    · exact h
    · exact objKeys_objSet_nodup _ _ _ h

theorem pairwise_foldl_saveStep (mcdata : McData) (items : List Item)
    (acc : RecipeTable) (h : (objKeys acc.own).Pairwise KeyBefore) :
    (objKeys (items.foldl (saveStep mcdata) acc).own).Pairwise KeyBefore := by
  induction items generalizing acc with
  | nil => exact h
  | cons item rest ih =>
    rw [List.foldl_cons, saveStep_eq]
    apply ih
    unfold tableAssign
    split
    · exact h
    · exact pairwise_objSet _ _ _ h

theorem stringKeys_foldl_saveStep (mcdata : McData) (items : List Item)
    (acc : RecipeTable) :
    ∃ s, List.Sublist s (items.map Item.name) ∧
      stringKeys (items.foldl (saveStep mcdata) acc).own = stringKeys acc.own ++ s := by
  induction items generalizing acc with
  | nil => exact ⟨[], List.Sublist.slnil, by simp⟩
  | cons item rest ih =>
    rw [List.foldl_cons, saveStep_eq]
    obtain ⟨s, hs, hkeys⟩ := ih (tableAssign acc item.name (mainRecord mcdata item.name))
    rw [hkeys, List.map_cons]
    have hskip : ∀ t : List String, List.Sublist t (rest.map Item.name) →
        List.Sublist t (item.name :: rest.map Item.name) := fun t ht => List.Sublist.cons _ ht
    unfold tableAssign
    by_cases hp : item.name = "__proto__"
    · rw [if_pos hp]
      exact ⟨s, hskip s hs, rfl⟩
    · rw [if_neg hp]
      simp only []
      rw [stringKeys_objSet]
      by_cases hm : item.name ∈ objKeys acc.own
      · rw [if_pos hm]
        exact ⟨s, hskip s hs, rfl⟩
      · rw [if_neg hm]
        by_cases hidx : arrayIndex item.name = none
        · rw [if_pos hidx]
          exact ⟨item.name :: s, List.Sublist.cons₂ _ hs, by simp⟩
        · rw [if_neg hidx]
          exact ⟨s, hskip s hs, rfl⟩

theorem mainRecord_of_none (mcdata : McData) (itemName : String) (id : Nat)
    (hid : getItemId mcdata itemName = some id)
    (hrs : objGet mcdata.recipes id = none ∨ objGet mcdata.recipes id = some []) :
    mainRecord mcdata itemName =
      { ingredients := [], craftedCount := 0, hasImage := true, isBaseItem := some true } := by
  unfold mainRecord
  rw [getItemCraftingRecipes_eq, hid]
  rcases hrs with h | h <;> simp [idGet, h]

theorem mainRecord_of_cons (mcdata : McData) (itemName : String) (id : Nat)
    (v : RawRecipe) (rest : List RawRecipe)
    (hid : getItemId mcdata itemName = some id)
    (hrs : objGet mcdata.recipes id = some (v :: rest)) :
    mainRecord mcdata itemName =
      { ingredients := countIngredients mcdata (ingredientsOf v)
        craftedCount := v.result.count
        hasImage := true
        isBaseItem := none } := by
  unfold mainRecord
  rw [getItemCraftingRecipes_eq, hid]
  simp [idGet, hrs, recipeEntry]

theorem getAllItems_congr {mcdata mcdata2 : McData} (h : mcdata2.items = mcdata.items) :
    getAllItems mcdata2 none = getAllItems mcdata none := by
  rw [getAllItems_none, getAllItems_none, h]

theorem getItemId_congr {mcdata mcdata2 : McData}
    (h : mcdata2.itemsByName = mcdata.itemsByName) (itemName : String) :
    getItemId mcdata2 itemName = getItemId mcdata itemName := by
  simp [getItemId, h]

/-! ## The recipe table builder: claims C4, C5, C6, C7, C9 -/

/-- C4: for an item enumerated by `getAllItems()` that the by-name table indexes under its
own id and that has no recipe variant (no recipes entry for its id, or an empty variant
list), the table of `saveRecipesToFile` maps the item's name to the record with
`ingredients = {}`, `craftedCount = 0` and `isBaseItem = true`. -/
theorem base_item_record (mcdata : McData) (item : Item)
    (hmem : item ∈ getAllItems mcdata none)
    (hid : getItemId mcdata item.name = some item.id)
    (hnone : objGet mcdata.recipes item.id = none ∨ objGet mcdata.recipes item.id = some []) :
    tableGet (saveRecipesToFile mcdata) item.name =
      some { ingredients := [], craftedCount := 0, hasImage := true, isBaseItem := some true } := by
  rw [tableGet_saveRecipesToFile mcdata item hmem,
    mainRecord_of_none mcdata item.name item.id hid hnone]

/-- Witness of C4 on `exampleData`: `cobblestone` has no recipes entry and `stick` has an
empty variant list. -/
theorem base_item_record_witness :
    objGet exampleData.recipes 4 = none ∧ objGet exampleData.recipes 2 = some [] ∧
      tableGet (saveRecipesToFile exampleData) "cobblestone" =
        some { ingredients := [], craftedCount := 0, hasImage := true, isBaseItem := some true } ∧
      tableGet (saveRecipesToFile exampleData) "stick" =
        some { ingredients := [], craftedCount := 0, hasImage := true, isBaseItem := some true } :=
  ⟨by decide, by decide,
   base_item_record exampleData ⟨4, "cobblestone"⟩ (by decide) (by decide) (Or.inl (by decide)),
   base_item_record exampleData ⟨2, "stick"⟩ (by decide) (by decide) (Or.inr (by decide))⟩

/-- C5: for an item enumerated by `getAllItems()` that the by-name table indexes under its
own id and whose recipes are `v :: rest`, the record stored under the item's name has the
ingredients map and the `craftedCount` of the first pair `getItemCraftingRecipes` returns,
which are those of `v`; the same record is stored for every other list `rest2` of later
variants. -/
theorem first_variant_record (mcdata : McData) (item : Item) (v : RawRecipe)
    (rest : List RawRecipe)
    (hmem : item ∈ getAllItems mcdata none)
    (hid : getItemId mcdata item.name = some item.id)
    (hrs : objGet mcdata.recipes item.id = some (v :: rest)) :
    ∃ out record, getItemCraftingRecipes mcdata item.name = some out ∧
      out.length = rest.length + 1 ∧
      tableGet (saveRecipesToFile mcdata) item.name = some record ∧
      out[0]? = some (record.ingredients, { craftedCount := record.craftedCount }) ∧
      record.ingredients = countIngredients mcdata (ingredientsOf v) ∧
      record.craftedCount = v.result.count ∧
      ∀ (mcdata2 : McData) (rest2 : List RawRecipe),
        mcdata2.items = mcdata.items → mcdata2.itemsByName = mcdata.itemsByName →
        objGet mcdata2.recipes item.id = some (v :: rest2) →
        tableGet (saveRecipesToFile mcdata2) item.name = some record := by
  refine ⟨(v :: rest).map (recipeEntry mcdata), mainRecord mcdata item.name, ?_, by simp,
    tableGet_saveRecipesToFile mcdata item hmem, ?_, ?_, ?_, ?_⟩
  · rw [getItemCraftingRecipes_eq, hid]
    simp [idGet, hrs]
  · rw [mainRecord_of_cons mcdata item.name item.id v rest hid hrs]
    simp [recipeEntry]
  · rw [mainRecord_of_cons mcdata item.name item.id v rest hid hrs]
  · rw [mainRecord_of_cons mcdata item.name item.id v rest hid hrs]
  · intro mcdata2 rest2 hitems hnames hrs2
    have hmem2 : item ∈ getAllItems mcdata2 none := by
      rw [getAllItems_congr hitems]
      exact hmem
    have hid2 : getItemId mcdata2 item.name = some item.id := by
      rw [getItemId_congr hnames]
      exact hid
    rw [tableGet_saveRecipesToFile mcdata2 item hmem2,
      mainRecord_of_cons mcdata2 item.name item.id v rest2 hid2 hrs2,
      mainRecord_of_cons mcdata item.name item.id v rest hid hrs,
      countIngredients_congr hitems]

/-- Witness of C5 on `exampleData`: the first variant of `torch` is the grid
`[[cobblestone], [stick]]` with result count 4; `exampleData2` has no later variant. -/
theorem first_variant_record_witness :
    tableGet (saveRecipesToFile exampleData) "torch" =
        some { ingredients := [("cobblestone", JSNumber.num 1), ("stick", JSNumber.num 1)],
               craftedCount := 4, hasImage := true, isBaseItem := none } ∧
      tableGet (saveRecipesToFile exampleData2) "torch" =
        some { ingredients := [("cobblestone", JSNumber.num 1), ("stick", JSNumber.num 1)],
               craftedCount := 4, hasImage := true, isBaseItem := none } ∧
      ∃ out record, getItemCraftingRecipes exampleData "torch" = some out ∧
        out.length = 2 ∧
        tableGet (saveRecipesToFile exampleData) "torch" = some record ∧
        out[0]? = some (record.ingredients, { craftedCount := record.craftedCount }) ∧
        record.ingredients = countIngredients exampleData [some 4, some 2] ∧
        record.craftedCount = 4 ∧
        ∀ (mcdata2 : McData) (rest2 : List RawRecipe),
          mcdata2.items = exampleData.items → mcdata2.itemsByName = exampleData.itemsByName →
          objGet mcdata2.recipes 5 =
            some (⟨none, some [[some 4], [some 2]], ⟨4⟩⟩ :: rest2) →
          tableGet (saveRecipesToFile mcdata2) "torch" = some record :=
  ⟨by decide, by decide,
   first_variant_record exampleData ⟨5, "torch"⟩ ⟨none, some [[some 4], [some 2]], ⟨4⟩⟩
     [⟨some [some 1], none, ⟨7⟩⟩] (by decide) (by decide) (by decide)⟩

/-- C6, as stated, fails on `exampleData`: `ladder` is enumerated, indexed under its id and
has four variants, and its record has no `isBaseItem` field, hence not the value `false`. -/
theorem crafted_record_lacks_isBaseItem :
    (⟨3, "ladder"⟩ : Item) ∈ getAllItems exampleData none ∧
      getItemId exampleData "ladder" = some 3 ∧
      (∃ v rest, objGet exampleData.recipes 3 = some (v :: rest)) ∧
      (tableGet (saveRecipesToFile exampleData) "ladder").map RecipeRecord.isBaseItem =
        some none ∧
      (tableGet (saveRecipesToFile exampleData) "ladder").map RecipeRecord.isBaseItem ≠
        some (some false) := by
  refine ⟨by decide, by decide, ⟨_, _, rfl⟩, by decide, by decide⟩

/-- C6 amended: for an item enumerated by `getAllItems()` that the by-name table indexes
under its own id, the table stores a record under the item's name; when the item has at
least one recipe variant the record has no `isBaseItem` field, and the field is present with
value `true` if and only if the item has no recipe variant (no recipes entry for its id, or
an empty variant list). -/
theorem isBaseItem_field (mcdata : McData) (item : Item)
    (hmem : item ∈ getAllItems mcdata none)
    (hid : getItemId mcdata item.name = some item.id) :
    ∃ record, tableGet (saveRecipesToFile mcdata) item.name = some record ∧
      ((∃ v rest, objGet mcdata.recipes item.id = some (v :: rest)) →
        record.isBaseItem = none) ∧
      (record.isBaseItem = some true ↔
        (objGet mcdata.recipes item.id = none ∨ objGet mcdata.recipes item.id = some [])) := by
  refine ⟨mainRecord mcdata item.name, tableGet_saveRecipesToFile mcdata item hmem, ?_, ?_⟩
  · rintro ⟨v, rest, hrs⟩
    rw [mainRecord_of_cons mcdata item.name item.id v rest hid hrs]
  · cases hrs : objGet mcdata.recipes item.id with
    | none =>
      rw [mainRecord_of_none mcdata item.name item.id hid (Or.inl hrs)]
      simp
    | some rs =>
      cases rs with
      | nil =>
        rw [mainRecord_of_none mcdata item.name item.id hid (Or.inr hrs)]
        simp
      | cons v rest =>
        rw [mainRecord_of_cons mcdata item.name item.id v rest hid hrs]
        simp

/-- Witness of the amended C6 on `exampleData`, at the item `ladder`. -/
theorem isBaseItem_field_witness :
    ∃ record, tableGet (saveRecipesToFile exampleData) "ladder" = some record ∧
      ((∃ v rest, objGet exampleData.recipes 3 = some (v :: rest)) →
        record.isBaseItem = none) ∧
      (record.isBaseItem = some true ↔
        (objGet exampleData.recipes 3 = none ∨ objGet exampleData.recipes 3 = some [])) :=
  isBaseItem_field exampleData ⟨3, "ladder"⟩ (by decide) (by decide)

/-- C7, as stated, fails on `protoData`, whose items are `b`, `__proto__`, `7` and `3` in
enumeration order: the item `__proto__` is returned by `getAllItems()` and the table has
no key of that name, because the assignment sets the prototype of the table; the keys of
the table are `3`, `7`, `b`. -/
theorem proto_item_has_no_key :
    (⟨2, "__proto__"⟩ : Item) ∈ getAllItems protoData none ∧
      (getAllItems protoData none).map Item.name = ["b", "__proto__", "7", "3"] ∧
      objKeys (saveRecipesToFile protoData).own = ["3", "7", "b"] ∧
      ¬ ∀ k, k ∈ objKeys (saveRecipesToFile protoData).own ↔
          ∃ item ∈ getAllItems protoData none, item.name = k := by
  have hkeys : objKeys (saveRecipesToFile protoData).own = ["3", "7", "b"] := by decide
  refine ⟨by decide, by decide, hkeys, ?_⟩
  intro h
  have hmem := (h "__proto__").mpr ⟨⟨2, "__proto__"⟩, by decide, rfl⟩
  rw [hkeys] at hmem
  revert hmem
  decide

/-- C7 amended: `getAllItems()` without exclusions returns every item of the catalog in
enumeration order.  The keys of the table of `saveRecipesToFile` are exactly the names of
these items other than `__proto__`, and no key is stored twice.  The keys are created in
enumeration order: the keys that are not integer-like are enumerated in that order, an
integer-like key is preceded only by integer-like keys of no larger index, and the keys are
the list of item names itself when the names are pairwise distinct, none is `__proto__` and
none is integer-like. -/
theorem table_keys_are_item_names (mcdata : McData) :
    getAllItems mcdata none = mcdata.items.map Prod.snd ∧
      (∀ k, k ∈ objKeys (saveRecipesToFile mcdata).own ↔
        k ≠ "__proto__" ∧ ∃ item ∈ getAllItems mcdata none, item.name = k) ∧
      (objKeys (saveRecipesToFile mcdata).own).Nodup ∧
      List.Sublist (stringKeys (saveRecipesToFile mcdata).own)
        ((getAllItems mcdata none).map Item.name) ∧
      (objKeys (saveRecipesToFile mcdata).own).Pairwise KeyBefore ∧
      (((getAllItems mcdata none).map Item.name).Nodup →
        (∀ n ∈ (getAllItems mcdata none).map Item.name,
          n ≠ "__proto__" ∧ arrayIndex n = none) →
        objKeys (saveRecipesToFile mcdata).own = (getAllItems mcdata none).map Item.name) := by
  have hmemiff : ∀ k, k ∈ objKeys (saveRecipesToFile mcdata).own ↔
      k ≠ "__proto__" ∧ k ∈ (getAllItems mcdata none).map Item.name := by
    intro k
    unfold saveRecipesToFile
    rw [mem_objKeys_foldl_saveStep]
    simp [objKeys]
  have hnodup : (objKeys (saveRecipesToFile mcdata).own).Nodup :=
    nodup_foldl_saveStep mcdata _ _ (by simp [objKeys])
  have hsub : List.Sublist (stringKeys (saveRecipesToFile mcdata).own)
      ((getAllItems mcdata none).map Item.name) := by
    obtain ⟨s, hs, hkeys⟩ := stringKeys_foldl_saveStep mcdata (getAllItems mcdata none)
      { proto := none, own := [] }
    unfold saveRecipesToFile
    rw [hkeys]
    simpa [stringKeys, objKeys] using hs
  have hpair : (objKeys (saveRecipesToFile mcdata).own).Pairwise KeyBefore :=
    pairwise_foldl_saveStep mcdata _ _ (by simp [objKeys])
  refine ⟨getAllItems_none mcdata, ?_, hnodup, hsub, hpair, ?_⟩
  · intro k
    rw [hmemiff, List.mem_map]
  · intro hnames hplain
    have hall : stringKeys (saveRecipesToFile mcdata).own =
        objKeys (saveRecipesToFile mcdata).own := by
      unfold stringKeys
      rw [List.filter_eq_self]
      intro k hk
      have hk2 := ((hmemiff k).mp hk).2
      simp [(hplain k hk2).2]
    rw [hall] at hsub
    apply hsub.eq_of_length_le
    have hsubset : (getAllItems mcdata none).map Item.name ⊆
        objKeys (saveRecipesToFile mcdata).own :=
      fun k hk => (hmemiff k).mpr ⟨(hplain k hk).1, hk⟩
    exact (List.subperm_of_subset hnames hsubset).length_le

/-- Witness of the amended C7 on `exampleData`: the keys of the table are the five item
names in enumeration order. -/
theorem table_keys_are_item_names_witness :
    objKeys (saveRecipesToFile exampleData).own =
      ["planks", "stick", "ladder", "cobblestone", "torch"] :=
  (table_keys_are_item_names exampleData).2.2.2.2.2 (by decide) (by decide)

/-- C9: in a catalog whose by-name table indexes every item of the by-id table, every key
of every ingredients map returned by `getItemCraftingRecipes` is a name `getItemId`
resolves to an id. -/
theorem ingredient_keys_resolve (mcdata : McData) (hwf : NamesIndexed mcdata)
    (itemName : String) (out : List (List (String × JSNumber) × Crafted))
    (hout : getItemCraftingRecipes mcdata itemName = some out)
    (entry : List (String × JSNumber) × Crafted) (hentry : entry ∈ out)
    (k : String) (hk : k ∈ objKeys entry.1) :
    ∃ id, getItemId mcdata k = some id := by
  rw [getItemCraftingRecipes_eq] at hout
  cases hrs : idGet mcdata.recipes (getItemId mcdata itemName) with
  | none => simp [hrs] at hout
  | some rs =>
    rw [hrs] at hout
    simp only [Option.map_some', Option.some.injEq] at hout
    subst hout
    obtain ⟨r, _, hr⟩ := List.mem_map.mp hentry
    subst hr
    obtain ⟨e, _, he⟩ := exists_of_mem_objKeys_countIngredients mcdata (ingredientsOf r) k hk
    unfold getItemName at he
    cases e with
    | none => simp [idGet] at he
    | some id =>
      cases hitem : objGet mcdata.items id with
      | none => simp [idGet, hitem] at he
      | some item =>
        simp only [idGet, hitem, Option.some.injEq] at he
        have hin := hwf (id, item) (mem_of_objGet _ _ _ hitem)
        exact ⟨item.id, by rw [← he]; exact hin⟩

/-- Witness of C9 on `exampleData`: the key `planks` of the first variant of `ladder`. -/
theorem ingredient_keys_resolve_witness :
    NamesIndexed exampleData ∧
      getItemCraftingRecipes exampleData "ladder" =
        some [([("planks", JSNumber.num 2), ("stick", JSNumber.num 1)], ⟨4⟩),
              ([("planks", JSNumber.num 1), ("stick", JSNumber.num 1)], ⟨1⟩),
              ([("planks", JSNumber.num 1), ("stick", JSNumber.num 1)], ⟨2⟩),
              ([("planks", JSNumber.num 1), ("stick", JSNumber.num 1)], ⟨3⟩)] ∧
      ∃ id, getItemId exampleData "planks" = some id :=
  ⟨by decide, by decide,
   ingredient_keys_resolve exampleData (by decide) "ladder" _ rfl
     ([("planks", JSNumber.num 2), ("stick", JSNumber.num 1)], ⟨4⟩) (by decide) "planks"
     (by decide)⟩

/-! ## The download progress counter: claim C10 -/

theorem processedCount_downloadLoop (env : DownloadEnv) (totalItems : Nat)
    (items : List Item) (i : Nat) (p : Progress) :
    (downloadLoop env totalItems i items p).processedCount =
      p.processedCount + items.length + existingFiles env i items := by
  induction items generalizing i p with
  | nil => simp [downloadLoop, existingFiles]
  | cons item rest ih =>
    rw [downloadLoop, ih]
    cases hex : env.existsSync i item.name
    · have hstep : (downloadStep env totalItems i p item).processedCount =
          p.processedCount + 1 := by
        simp [downloadStep, hex, report]
      rw [hstep]
      simp [existingFiles, hex]
      omega
    · have hstep : (downloadStep env totalItems i p item).processedCount =
          p.processedCount + 2 := by
        simp [downloadStep, hex, report]
      rw [hstep]
      simp [existingFiles, hex]
      omega

/-- The counter at the end of `downloadAllItemImages` is the number of items plus the
number of iterations that found the image file already on disk. -/
theorem processedCount_downloadAllItemImages (env : DownloadEnv) (mcdata : McData) :
    (downloadAllItemImages env mcdata).processedCount =
      (getAllItems mcdata none).length + existingFiles env 0 (getAllItems mcdata none) := by
  unfold downloadAllItemImages
  simp only [processedCount_downloadLoop]
  omega

/-- C10 fails on the catalog `oneItemData` when the image file of its item is on disk:
`totalItems` is 1, the counter is incremented before the `continue` and again in
`finally`, the second progress line reports 2 of 1, and the loop ends with the counter
at 2. -/
theorem processedCount_counts_existing_file_twice :
    (getAllItems oneItemData none).length = 1 ∧
      downloadAllItemImages allOnDisk oneItemData =
        { processedCount := 2, written := [(1, 1), (2, 1)] } ∧
      ¬ (downloadAllItemImages allOnDisk oneItemData).processedCount ≤
          (getAllItems oneItemData none).length := by
  decide

end RecipeVisualizer
